import Mathlib

/-!
Verification of the Pharmyrus patent-intelligence core (WIPO crawler,
crawler pool, pipeline service, API filter) against its specification.

The Python sources are shallowly embedded: Python strings are Lean
strings (lists of characters where character-level scanning is needed),
Python dicts with insertion order are association lists, and the
retrying fetch loop is an explicit recursion instrumented with the
number of attempts performed.
-/

namespace Pharmyrus

/-! ## String utilities (models of the Python string operations used) -/

/-- Model of the Python substring test (the `in` operator on strings):
true when pat occurs contiguously in the haystack. -/
def containsSub (pat : List Char) : List Char → Bool
  | [] => pat.isEmpty
  | c :: rest => pat.isPrefixOf (c :: rest) || containsSub pat rest

/-- Model of Python str.lower restricted to the characters that occur in
the scraped legal-status texts (ASCII): lowercases every character. -/
def pyLower (s : List Char) : List Char := s.map Char.toLower

/-- Case-insensitive containment as written in the source:
pat in legal_status.lower(), with pat a lowercase literal. -/
def containsLower (hay : String) (pat : String) : Bool :=
  containsSub pat.data (pyLower hay.data)

/-! ## Worldwide-applications extraction
Model of WIPOCrawler._extract_worldwide_applications (wipo_crawler.py).
A worldwide mapping is a Python dict keyed by year string, kept in
insertion order, each value an ordered list of national applications. -/

/-- One row of the worldwide-applications (National Phase) table,
as stored by the crawler. -/
structure NationalApp where
  filing_date : String
  country_code : String
  application_number : String
  document_id : String
  legal_status : String
  legal_status_cat : String
deriving DecidableEq, Repr

/-- Insertion-ordered dict from year string to applications. -/
abbrev Worldwide := List (String × List NationalApp)

/-- Python dict write with list append:
worldwide.setdefault(year, []).append(a). An existing key keeps its
position; a new key is appended at the end. -/
def wwAppend : Worldwide → String → NationalApp → Worldwide
  | [], y, a => [(y, [a])]
  | p :: rest, y, a =>
    if p.1 = y then (p.1, p.2 ++ [a]) :: rest
    else p :: wwAppend rest y a

/-- Python dict lookup on the worldwide mapping. -/
def wwLookup : Worldwide → String → Option (List NationalApp)
  | [], _ => none
  | p :: rest, y => if p.1 = y then some p.2 else wwLookup rest y

/-- Derivation of the coarse legal-status category from the free-text
legal status (wipo_crawler.py lines 337-340): "grant" in the lowercased
text gives active, otherwise "withdraw" or "abandon" gives not_active,
otherwise the category stays unknown. -/
def legalStatusCat (legal : String) : String :=
  if containsLower legal "grant" then "active"
  else if containsLower legal "withdraw" || containsLower legal "abandon" then "not_active"
  else "unknown"

/-- Processing of one parsed table row (wipo_crawler.py lines 315-349).
cells are the stripped td texts of the row. Rows with fewer than 3 cells
are skipped; the year bucket is the first 4 characters of the filing
date when it has at least 4 characters, else the sentinel "Unknown";
the row is stored only when the country-code cell is non-empty and
exactly 2 characters long. The stored document id models
doc_id or f-string with doc_id the empty string, hence the f-string. -/
def parseTableStep (w : Worldwide) (cells : List String) : Worldwide :=
  match cells with
  | filing :: country :: appNum :: restCells =>
    let year := if 4 ≤ filing.length then filing.take 4 else "Unknown"
    if country ≠ "" ∧ country.length = 2 then
      let legal := match restCells with
        | l :: _ => l
        | [] => ""
      let cat := match restCells with
        | l :: _ => legalStatusCat l
        | [] => "unknown"
      wwAppend w year
        { filing_date := filing
          country_code := country
          application_number := appNum
          document_id := "patent/" ++ country ++ appNum ++ "/en"
          legal_status := legal
          legal_status_cat := cat }
    else w
  | _ => w

/-- Secondary sweep over bare country-code elements found on the page
(wipo_crawler.py lines 364-387): a non-empty 2-character code is added
to the "Unknown" bucket with empty fields unless an application with
that code is already in that bucket. The source first ensures the
bucket exists and then checks membership; since a just-created bucket
is empty, the net effect is the conditional append modelled here. -/
def sweepStep (w : Worldwide) (country : String) : Worldwide :=
  if country ≠ "" ∧ country.length = 2 then
    let bucket := (wwLookup w "Unknown").getD []
    if bucket.any (fun a => a.country_code == country) then w
    else wwAppend w "Unknown"
      { filing_date := ""
        country_code := country
        application_number := ""
        document_id := ""
        legal_status := ""
        legal_status_cat := "unknown" }
  else w

/-- Model of _extract_worldwide_applications on the path where the
National Phase tab was activated: rows are the data rows (header
stripped) of the first table selector that matched, and sweep the texts
of the bare country-code elements. -/
def extractWorldwideApplications (rows : List (List String)) (sweep : List String) : Worldwide :=
  sweep.foldl sweepStep (rows.foldl parseTableStep [])

/-! ## Family countries
Model of the derivation in fetch_patent (wipo_crawler.py lines 474-481):
a Python set of the truthy country codes of every stored application,
returned as a sorted list. The set plus final sort is modelled by
maintaining a strictly sorted duplicate-free list. -/

/-- Computable lexicographic comparison of character lists, matching
the codepoint order Python uses to sort strings. -/
def lexLt : List Char → List Char → Bool
  | _, [] => false
  | [], _ :: _ => true
  | a :: as, b :: bs => if a < b then true else if b < a then false else lexLt as bs

/-- Computable strict order on strings (proved below to agree with the
mathematical order on String). -/
def strLt (a b : String) : Bool := lexLt a.data b.data

/-- Insertion into a strictly sorted duplicate-free list of strings. -/
def insertUniq (x : String) : List String → List String
  | [] => [x]
  | y :: ys =>
    if strLt x y then x :: y :: ys
    else if x = y then y :: ys
    else y :: insertUniq x ys

/-- Sorted set of the non-empty country codes over all year buckets,
as computed at the end of a successful fetch. -/
def familyCountries (w : Worldwide) : List String :=
  w.foldl
    (fun acc p =>
      p.2.foldl
        (fun acc2 a =>
          if a.country_code ≠ "" then insertUniq a.country_code acc2 else acc2)
        acc)
    []

/-! ## Identifier normalization
Model of the string cleanup in fetch_patent (wipo_crawler.py line 430):
wo_clean = wo_number.replace('WO','').replace(' ','').replace('/','')
and the canonical form WO followed by wo_clean used in the detail URL. -/

/-- Fuel-bounded engine for Python str.replace: scans left to right and
replaces non-overlapping occurrences of pat. Each step consumes at
least one character, so fuel equal to the string length is always
sufficient and the wrapper below is exact. -/
def replFuel (pat repl : List Char) : Nat → List Char → List Char
  | 0, s => s
  | _ + 1, [] => []
  | f + 1, c :: rest =>
    if pat ≠ [] ∧ pat.isPrefixOf (c :: rest) then
      repl ++ replFuel pat repl f ((c :: rest).drop pat.length)
    else
      c :: replFuel pat repl f rest

/-- Model of Python s.replace(pat, repl) for non-empty pat. -/
def pyReplace (s pat repl : List Char) : List Char :=
  replFuel pat repl s.length s

/-- Canonical identifier as built in fetch_patent: the literal WO
followed by the input with every occurrence of uppercase WO, of a
space, and of a slash removed (in that order). -/
def normalizeWO (s : String) : String :=
  let cleaned := pyReplace (pyReplace (pyReplace s.data "WO".data []) " ".data []) "/".data []
  String.mk ('W' :: 'O' :: cleaned)

/-- Detail-page URL for an identifier as built in fetch_patent
(line 431). -/
def detailUrl (wo : String) : String :=
  "https://patentscope.wipo.int/search/en/detail.jsf?docId=" ++ normalizeWO wo

/-! ## The retrying fetch (fetch_patent, wipo_crawler.py lines 413-535)
One attempt either fails to load the page (navigation error, non-200
status) or yields extracted data; extracted data is then validated.
On a retryable failure the function re-invokes itself with
retry_count + 1 while retry_count < max_retries - 1, else returns the
terminal failure record. The model is instrumented with the number of
attempts performed. -/

/-- The fields of one attempt's extracted data that the validation and
the family-country derivation read: the three basic text fields, the
three dates, and the worldwide mapping. -/
structure ExtractedData where
  titulo : Option String
  resumo : Option String
  titular : Option String
  deposito : Option String
  dataPublicacao : Option String
  prioridade : Option String
  worldwide : Worldwide
deriving DecidableEq, Repr

/-- Result of the load-and-extract phase of one attempt, supplied by an
oracle indexed by the attempt's retry count. -/
inductive LoadOutcome where
  | loadFail (msg : String)
  | loaded (d : ExtractedData)

/-- Python truthiness of an optional string field: None and the empty
string are falsy. -/
def optTruthy : Option String → Bool
  | none => false
  | some s => s ≠ ""

/-- The has_basic_data check (line 490): bool of titulo or resumo or
titular. -/
def hasBasicData (d : ExtractedData) : Bool :=
  optTruthy d.titulo || optTruthy d.resumo || optTruthy d.titular

/-- Validation of an attempt (lines 490-494): accepted when basic data
is present or the worldwide mapping is non-empty. -/
def acceptedExtraction (d : ExtractedData) : Bool :=
  hasBasicData d || !d.worldwide.isEmpty

/-- Error message raised when validation rejects the attempt
(line 494). -/
def noDataMsg : String :=
  "Nenhum dado essencial extraído (nem básico nem worldwide)"

/-- Outcome of a completed fetch: a success record carrying the data
and the derived family countries, or the terminal failure record
carrying erro and the final retry_count stored in its debug dict. -/
inductive FetchOutcome where
  | success (d : ExtractedData) (family : List String)
  | failure (erro : String) (retryCount : Nat)
deriving DecidableEq, Repr

/-- One attempt body inside the try block: load failures and validation
failures both surface as the caught exception message. -/
def attemptResult (oracle : Nat → LoadOutcome) (retryCount : Nat) :
    Except String ExtractedData :=
  match oracle retryCount with
  | .loadFail m => .error m
  | .loaded d => if acceptedExtraction d then .ok d else .error noDataMsg

/-- The retry loop of fetch_patent, returning the outcome and the
number of attempts performed. -/
def fetchGo (maxRetries : Nat) (oracle : Nat → LoadOutcome) (retryCount : Nat) :
    FetchOutcome × Nat :=
  match attemptResult oracle retryCount with
  | .ok d => (.success d (familyCountries d.worldwide), 1)
  | .error m =>
    if h : retryCount < maxRetries - 1 then
      let p := fetchGo maxRetries oracle (retryCount + 1)
      (p.1, p.2 + 1)
    else
      (.failure m retryCount, 1)
termination_by maxRetries - 1 - retryCount
decreasing_by omega

/-- fetch_patent entry point: retry_count starts at 0. -/
def fetchPatentModel (maxRetries : Nat) (oracle : Nat → LoadOutcome) :
    FetchOutcome × Nat :=
  fetchGo maxRetries oracle 0

/-- The erro field read by callers via data.get of the erro key: present
exactly on the terminal failure record. -/
def getErro : FetchOutcome → Option String
  | .success _ _ => none
  | .failure m _ => some m

/-! ## Crawler pool with cache
Model of CrawlerPool.fetch_patent (crawler_pool.py lines 37-60): the
cache is a dict keyed by the wo_number argument as given; a hit returns
the cached record with no crawler call; on a miss the crawler runs and
the result is cached only when its erro field is unset. -/

/-- Python dict lookup on the pool cache. -/
def lookupAssoc : List (String × FetchOutcome) → String → Option FetchOutcome
  | [], _ => none
  | p :: rest, k => if p.1 = k then some p.2 else lookupAssoc rest k

/-- Result of one pool fetch: the returned record, the cache after the
call, and whether a crawler extraction was performed. -/
structure PoolFetchResult where
  result : FetchOutcome
  cache : List (String × FetchOutcome)
  extracted : Bool
deriving DecidableEq, Repr

/-- CrawlerPool.fetch_patent with the crawler abstracted as a function
from the identifier to its fetch outcome. -/
def poolFetchPatent (cache : List (String × FetchOutcome))
    (crawl : String → FetchOutcome) (wo : String) : PoolFetchResult :=
  match lookupAssoc cache wo with
  | some r => ⟨r, cache, false⟩
  | none =>
    let d := crawl wo
    match getErro d with
    | none => ⟨d, cache ++ [(wo, d)], true⟩
    | some _ => ⟨d, cache, true⟩

/-! ## Discovery (pipeline_service.py, _layer2_discover_wos lines 272-287)
The identifier pattern WO[space or dash optional]4 digits[space or
slash optional]6 digits, case-insensitive, is scanned over each result
text; each match is emitted as WO followed by the two digit groups and
inserted into a set, returned sorted. -/

/-- Characters matched by the regex whitespace class for the ASCII
texts in scope. -/
def isPySpace (c : Char) : Bool :=
  c = ' ' || c = '\t' || c = '\n' || c = '\r' || c = '\x0b' || c = '\x0c'

/-- First optional separator class of the pattern: whitespace or a
dash. -/
def isSepDash (c : Char) : Bool := isPySpace c || c = '-'

/-- Second optional separator class of the pattern: whitespace or a
slash. -/
def isSepSlash (c : Char) : Bool := isPySpace c || c = '/'

/-- Exactly n consecutive ASCII digits, returning them and the rest. -/
def takeDigits : Nat → List Char → Option (List Char × List Char)
  | 0, s => some ([], s)
  | _ + 1, [] => none
  | n + 1, c :: rest =>
    if c.isDigit then
      match takeDigits n rest with
      | some (d, r) => some (c :: d, r)
      | none => none
    else none

/-- Attempt to match the identifier pattern at the head of the text,
returning the year group, the sequence group and the rest of the text
after the match. The two optional separator classes contain no digits,
so the greedy one-character options never need backtracking and the
match is deterministic. -/
def matchWO : List Char → Option (String × String × List Char)
  | c1 :: c2 :: rest =>
    if (c1 = 'W' || c1 = 'w') && (c2 = 'O' || c2 = 'o') then
      let rest1 := match rest with
        | c :: r => if isSepDash c then r else c :: r
        | [] => []
      match takeDigits 4 rest1 with
      | some (y, rest2) =>
        let rest3 := match rest2 with
          | c :: r => if isSepSlash c then r else c :: r
          | [] => []
        match takeDigits 6 rest3 with
        | some (n, rest4) => some (String.mk y, String.mk n, rest4)
        | none => none
      | none => none
    else none
  | _ => none

/-- Fuel-bounded scan for all non-overlapping matches, left to right,
resuming after each match as re.findall does. A successful match
consumes at least twelve characters and a failure advances by one, so
fuel equal to the text length is always sufficient. -/
def scanFuel : Nat → List Char → List (String × String)
  | 0, _ => []
  | _ + 1, [] => []
  | f + 1, c :: rest =>
    match matchWO (c :: rest) with
    | some (y, n, rest2) => (y, n) :: scanFuel f rest2
    | none => scanFuel f rest

/-- All matches of the identifier pattern in one result text. -/
def scanWO (s : String) : List (String × String) :=
  scanFuel s.data.length s.data

/-- Discovery over the collected result texts: every match is rendered
as WO followed by its digit groups and accumulated into a set, modelled
as a strictly sorted duplicate-free list, which is also the final
sorted output. -/
def discoverWOs (texts : List String) : List String :=
  texts.foldl
    (fun acc t =>
      (scanWO t).foldl (fun a p => insertUniq ("WO" ++ p.1 ++ p.2) a) acc)
    []

/-! ## Pipeline patent-detail stage and API country filter
Models of _layer3_patent_details (pipeline_service.py lines 299-341)
and of the filter block of get_wipo_patent (api_service.py lines
125-135). A crawl record is reduced to the fields these stages read
and write; country_filter_applied is None while the dict key is
absent. -/

/-- The slice of a crawler result dict used by the pipeline stage and
the API filter. -/
structure CrawlRecord where
  publicacao : String
  erro : Option String
  worldwide_applications : Worldwide
  paises_familia : List String
  country_filter_applied : Option String
deriving DecidableEq, Repr

/-- Per-record step of the patent-details stage: an erro record goes to
the error list; otherwise, with a filter set, the whole record is kept
unmodified when the filter country is among its family countries and
skipped otherwise; with no filter every record is kept. -/
def layer3Step (countryFilter : Option String)
    (acc : List CrawlRecord × List String) (rec : CrawlRecord) :
    List CrawlRecord × List String :=
  match rec.erro with
  | some e => (acc.1, acc.2 ++ [rec.publicacao ++ ": " ++ e])
  | none =>
    match countryFilter with
    | some c =>
      if c ∈ rec.paises_familia then (acc.1 ++ [rec], acc.2) else acc
    | none => (acc.1 ++ [rec], acc.2)

/-- The patent-details stage over the fetched records, returning the
kept patents and the error strings. -/
def layer3PatentDetails (countryFilter : Option String)
    (fetched : List CrawlRecord) : List CrawlRecord × List String :=
  fetched.foldl (layer3Step countryFilter) ([], [])

/-- The worldwide filter of get_wipo_patent: keep in each year bucket
only the applications whose country code equals the filter, and drop a
bucket whose filtered list is empty. -/
def filterWorldwideByCountry (c : String) (w : Worldwide) : Worldwide :=
  w.filterMap (fun p =>
    let f := p.2.filter (fun a => a.country_code = c)
    if f ≠ [] then some (p.1, f) else none)

/-- The country-filter block of get_wipo_patent: with a filter set the
record's worldwide mapping is replaced by its filtered form and the
record is tagged with the applied filter. -/
def apiCountryFilter (country : Option String) (rec : CrawlRecord) : CrawlRecord :=
  match country with
  | none => rec
  | some c =>
    { rec with
      worldwide_applications := filterWorldwideByCountry c rec.worldwide_applications
      country_filter_applied := some c }

/-! ## Record shapes as dicts (for the fixed-shape claims)
The success-path and failure-path results of fetch_patent are dict
literals in the source; their key structure is modelled exactly. -/

/-- JSON-like values for dict fields; numbers are abstracted to Nat
where their value participates in a claim (retry_count) and passed
through opaquely otherwise. -/
inductive Val where
  | vnull : Val
  | vstr : String → Val
  | vnat : Nat → Val
  | vlist : List Val → Val
  | vdict : List (String × Val) → Val

/-- Keys of a dict in insertion order. -/
def dictKeys (d : List (String × Val)) : List String := d.map Prod.fst

/-- Python dict lookup. -/
def dictLookup : List (String × Val) → String → Option Val
  | [], _ => none
  | p :: rest, k => if p.1 = k then some p.2 else dictLookup rest k

/-- Python dict assignment: an existing key keeps its position and gets
the new value, a new key is appended at the end. -/
def dictSet (d : List (String × Val)) (k : String) (v : Val) :
    List (String × Val) :=
  if d.any (fun p => p.1 == k) then
    d.map (fun p => if p.1 = k then (p.1, v) else p)
  else d ++ [(k, v)]

/-- Assignment into a nested dict field, as in the debug updates of the
success path; the outer key is assumed to hold a dict (as it does in
the source) and an absent or non-dict value is treated as empty. -/
def dictSetIn (d : List (String × Val)) (k1 k2 : String) (v : Val) :
    List (String × Val) :=
  let inner := match dictLookup d k1 with
    | some (Val.vdict dd) => dd
    | _ => []
  dictSet d k1 (Val.vdict (dictSet inner k2 v))

/-- The data dict initialized by _extract_basic_data (wipo_crawler.py
lines 106-131). The later selector strategies only assign to keys
already present here (including nested debug keys), so the top-level
key set of the success path is fixed by this literal. -/
def basicDataInit (wo : String) : List (String × Val) :=
  [("fonte", Val.vstr "WIPO"),
   ("pais", Val.vstr "WO"),
   ("publicacao", Val.vstr wo),
   ("pedido", Val.vnull),
   ("titulo", Val.vnull),
   ("titular", Val.vnull),
   ("datas", Val.vdict
      [("deposito", Val.vnull),
       ("publicacao", Val.vnull),
       ("prioridade", Val.vnull)]),
   ("inventores", Val.vlist []),
   ("cpc_ipc", Val.vlist []),
   ("resumo", Val.vnull),
   ("paises_familia", Val.vlist []),
   ("documentos", Val.vdict
      [("pdf_link", Val.vnull),
       ("patentscope_link",
        Val.vstr ("https://patentscope.wipo.int/search/en/detail.jsf?docId=" ++ wo))]),
   ("worldwide_applications", Val.vdict []),
   ("debug", Val.vdict
      [("extraction_method", Val.vstr "playwright"),
       ("selectors_found", Val.vlist [])])]

/-- The success record of fetch_patent (lines 462-497): the basic-data
dict with worldwide_applications and paises_familia overwritten, the
duration added, and three debug counters set. -/
def successRecordDict (base : List (String × Val)) (ww pf dur twa bpf cf : Val) :
    List (String × Val) :=
  let d1 := dictSet base "worldwide_applications" ww
  let d2 := dictSet d1 "paises_familia" pf
  let d3 := dictSet d2 "duracao_segundos" dur
  let d4 := dictSetIn d3 "debug" "total_worldwide_apps" twa
  let d5 := dictSetIn d4 "debug" "br_patents_found" bpf
  dictSetIn d5 "debug" "countries_found" cf

/-- The terminal failure record of fetch_patent (lines 516-529),
returned after exhausting retries. -/
def terminalRecordDict (wo err : String) (dur : Val) (retryCount : Nat) :
    List (String × Val) :=
  [("fonte", Val.vstr "WIPO"),
   ("pais", Val.vstr "WO"),
   ("publicacao", Val.vstr wo),
   ("erro", Val.vstr err),
   ("status", Val.vstr "FALHA"),
   ("duracao_segundos", dur),
   ("documentos", Val.vdict [("patentscope_link", Val.vstr (detailUrl wo))]),
   ("worldwide_applications", Val.vdict []),
   ("debug", Val.vdict
      [("error", Val.vstr err),
       ("retry_count", Val.vnat retryCount)])]

/-! ## Helper lemmas -/

theorem lexLt_iff (as : List Char) : ∀ bs, lexLt as bs = true ↔ as < bs := by
  induction as with
  | nil =>
    intro bs
    cases bs with
    | nil =>
      refine iff_of_false (by simp [lexLt]) ?_
      exact fun h => nomatch h
    | cons b bs =>
      exact iff_of_true (by simp [lexLt]) List.Lex.nil
  | cons a as ih =>
    intro bs
    cases bs with
    | nil =>
      refine iff_of_false (by simp [lexLt]) ?_
      exact fun h => nomatch h
    | cons b bs =>
      unfold lexLt
      by_cases h1 : a < b
      · rw [if_pos h1]
        exact iff_of_true rfl (List.Lex.rel h1)
      · rw [if_neg h1]
        by_cases h2 : b < a
        · rw [if_pos h2]
          refine iff_of_false (by simp) ?_
          intro h
          cases h with
          | rel hr => exact h1 hr
          | cons hc => exact absurd h2 (lt_irrefl _)
        · rw [if_neg h2]
          have hab : a = b := le_antisymm (not_lt.1 h2) (not_lt.1 h1)
          subst hab
          constructor
          · intro h
            exact List.Lex.cons ((ih bs).1 h)
          · intro h
            cases h with
            | rel hr => exact absurd hr (lt_irrefl _)
            | cons hc => exact (ih bs).2 hc

theorem strLt_iff (a b : String) : strLt a b = true ↔ a < b := by
  rw [String.lt_iff_toList_lt]
  exact lexLt_iff a.data b.data

theorem mem_insertUniq (x a : String) (l : List String) :
    a ∈ insertUniq x l ↔ a = x ∨ a ∈ l := by
  induction l with
  | nil => simp [insertUniq]
  | cons y ys ih =>
    unfold insertUniq
    by_cases h1 : strLt x y = true
    · rw [if_pos h1]
      simp only [List.mem_cons]
    · by_cases h2 : x = y
      · subst h2
        rw [if_neg h1, if_pos rfl]
        simp only [List.mem_cons]
        tauto
      · rw [if_neg h1, if_neg h2]
        simp only [List.mem_cons, ih]
        tauto

theorem sorted_insertUniq (x : String) (l : List String)
    (h : l.Sorted (· < ·)) : (insertUniq x l).Sorted (· < ·) := by
  induction l with
  | nil => simp [insertUniq]
  | cons y ys ih =>
    rw [List.sorted_cons] at h
    unfold insertUniq
    by_cases h1 : strLt x y = true
    · have hlt : x < y := (strLt_iff x y).1 h1
      rw [if_pos h1, List.sorted_cons]
      refine ⟨?_, ?_⟩
      · intro b hb
        rcases List.mem_cons.1 hb with hb | hb
        · exact hb ▸ hlt
        · exact lt_trans hlt (h.1 b hb)
      · rw [List.sorted_cons]
        exact h
    · have hnlt : ¬x < y := fun hh => h1 ((strLt_iff x y).2 hh)
      by_cases h2 : x = y
      · rw [if_neg h1, if_pos h2, List.sorted_cons]
        exact h
      · have hyx : y < x := lt_of_le_of_ne (not_lt.1 hnlt) (Ne.symm h2)
        rw [if_neg h1, if_neg h2, List.sorted_cons]
        refine ⟨?_, ih h.2⟩
        intro b hb
        rcases (mem_insertUniq x b ys).1 hb with hb | hb
        · exact hb ▸ hyx
        · exact h.1 b hb

theorem optTruthy_iff (o : Option String) :
    optTruthy o = true ↔ ∃ s, o = some s ∧ s ≠ "" := by
  cases o with
  | none => simp [optTruthy]
  | some s => simp [optTruthy]

theorem containsSub_singleton (c : Char) (s : List Char) :
    containsSub [c] s = true ↔ c ∈ s := by
  induction s with
  | nil => simp [containsSub]
  | cons x rest ih =>
    have hpre : ([c].isPrefixOf (x :: rest)) = (c == x) := by
      simp [List.isPrefixOf]
    simp only [containsSub, hpre, Bool.or_eq_true, beq_iff_eq, ih, List.mem_cons]

theorem replFuel_of_not_contains (pat repl : List Char) (fuel : Nat)
    (s : List Char) (h : containsSub pat s = false) :
    replFuel pat repl fuel s = s := by
  induction fuel generalizing s with
  | zero => rfl
  | succ f ih =>
    cases s with
    | nil => rfl
    | cons c rest =>
      simp only [containsSub, Bool.or_eq_false_iff] at h
      unfold replFuel
      rw [if_neg, ih rest h.2]
      intro hcon
      rw [hcon.2] at h
      simp at h

theorem pyReplace_of_not_contains (s pat repl : List Char)
    (h : containsSub pat s = false) : pyReplace s pat repl = s :=
  replFuel_of_not_contains pat repl s.length s h

theorem mem_apps_wwAppend {w : Worldwide} {y : String} {a : NationalApp}
    {q : String × List NationalApp} {x : NationalApp}
    (hq : q ∈ wwAppend w y a) (hx : x ∈ q.2) :
    (∃ q0 ∈ w, x ∈ q0.2) ∨ x = a := by
  induction w with
  | nil =>
    simp only [wwAppend, List.mem_singleton] at hq
    subst hq
    simp only [List.mem_singleton] at hx
    exact Or.inr hx
  | cons p rest ih =>
    unfold wwAppend at hq
    by_cases hp : p.1 = y
    · rw [if_pos hp] at hq
      rcases List.mem_cons.1 hq with hq | hq
      · subst hq
        rcases List.mem_append.1 hx with hx | hx
        · exact Or.inl ⟨p, List.mem_cons_self p rest, hx⟩
        · simp only [List.mem_singleton] at hx
          exact Or.inr hx
      · exact Or.inl ⟨q, List.mem_cons_of_mem p hq, hx⟩
    · rw [if_neg hp] at hq
      rcases List.mem_cons.1 hq with hq | hq
      · subst hq
        exact Or.inl ⟨q, List.mem_cons_self q rest, hx⟩
      · rcases ih hq with ⟨q0, hq0, hxq0⟩ | hxa
        · exact Or.inl ⟨q0, List.mem_cons_of_mem p hq0, hxq0⟩
        · exact Or.inr hxa

/-- Invariant satisfied by every application stored by the extractor:
the country code is non-empty and exactly 2 characters, and the
legal-status category is one of the three values the source can
produce. -/
def storedAppOK (x : NationalApp) : Prop :=
  x.country_code ≠ "" ∧ x.country_code.length = 2 ∧
  (x.legal_status_cat = "active" ∨ x.legal_status_cat = "not_active" ∨
   x.legal_status_cat = "unknown")

theorem legalStatusCat_cases (l : String) :
    legalStatusCat l = "active" ∨ legalStatusCat l = "not_active" ∨
    legalStatusCat l = "unknown" := by
  unfold legalStatusCat
  split_ifs <;> simp

/-- A fold-invariant statement: every application stored in the
worldwide mapping by the extractor satisfies storedAppOK. -/
theorem parseTableStep_sound {w : Worldwide} (cells : List String)
    (hw : ∀ q ∈ w, ∀ x ∈ q.2, storedAppOK x) :
    ∀ q ∈ parseTableStep w cells, ∀ x ∈ q.2, storedAppOK x := by
  intro q hq x hx
  rcases cells with _ | ⟨filing, _ | ⟨country, _ | ⟨appNum, restCells⟩⟩⟩
  · exact hw q hq x hx
  · exact hw q hq x hx
  · exact hw q hq x hx
  · simp only [parseTableStep] at hq
    by_cases hc : country ≠ "" ∧ country.length = 2
    · rw [if_pos hc] at hq
      rcases mem_apps_wwAppend hq hx with ⟨q0, hq0, hxq0⟩ | hxa
      · exact hw q0 hq0 x hxq0
      · subst hxa
        refine ⟨hc.1, hc.2, ?_⟩
        rcases restCells with _ | ⟨l, _⟩
        · simp
        · exact legalStatusCat_cases l
    · rw [if_neg hc] at hq
      exact hw q hq x hx

theorem sweepStep_sound {w : Worldwide} (country : String)
    (hw : ∀ q ∈ w, ∀ x ∈ q.2, storedAppOK x) :
    ∀ q ∈ sweepStep w country, ∀ x ∈ q.2, storedAppOK x := by
  intro q hq x hx
  unfold sweepStep at hq
  by_cases hc : country ≠ "" ∧ country.length = 2
  · rw [if_pos hc] at hq
    by_cases hex : ((wwLookup w "Unknown").getD []).any
        (fun a => a.country_code == country) = true
    · rw [if_pos hex] at hq
      exact hw q hq x hx
    · rw [if_neg hex] at hq
      rcases mem_apps_wwAppend hq hx with ⟨q0, hq0, hxq0⟩ | hxa
      · exact hw q0 hq0 x hxq0
      · subst hxa
        exact ⟨hc.1, hc.2, Or.inr (Or.inr rfl)⟩
  · rw [if_neg hc] at hq
    exact hw q hq x hx

theorem extract_sound (rows : List (List String)) (sweep : List String) :
    ∀ q ∈ extractWorldwideApplications rows sweep, ∀ x ∈ q.2, storedAppOK x := by
  unfold extractWorldwideApplications
  have hparse : ∀ (rs : List (List String)) (w : Worldwide),
      (∀ q ∈ w, ∀ x ∈ q.2, storedAppOK x) →
      ∀ q ∈ rs.foldl parseTableStep w, ∀ x ∈ q.2, storedAppOK x := by
    intro rs
    induction rs with
    | nil => intro w hw; exact hw
    | cons r rest ih =>
      intro w hw
      exact ih (parseTableStep w r) (parseTableStep_sound r hw)
  have hsweep : ∀ (cs : List String) (w : Worldwide),
      (∀ q ∈ w, ∀ x ∈ q.2, storedAppOK x) →
      ∀ q ∈ cs.foldl sweepStep w, ∀ x ∈ q.2, storedAppOK x := by
    intro cs
    induction cs with
    | nil => intro w hw; exact hw
    | cons c rest ih =>
      intro w hw
      exact ih (sweepStep w c) (sweepStep_sound c hw)
  exact hsweep sweep (rows.foldl parseTableStep [])
    (hparse rows [] (by intro q hq; simp at hq))

/-- Validity of a parsed table row exactly as checked by the source:
at least 3 cells and a non-empty 2-character country-code cell. -/
def validRow : List String → Bool
  | _ :: country :: _ :: _ => decide (country ≠ "" ∧ country.length = 2)
  | _ => false

theorem parseTableStep_invalid {cells : List String} (w : Worldwide)
    (h : validRow cells = false) : parseTableStep w cells = w := by
  rcases cells with _ | ⟨filing, _ | ⟨country, _ | ⟨appNum, restCells⟩⟩⟩
  · rfl
  · rfl
  · rfl
  · unfold validRow at h
    rw [decide_eq_false_iff_not] at h
    simp only [parseTableStep]
    rw [if_neg h]

theorem parse_foldl_filter (rows : List (List String)) :
    ∀ w : Worldwide,
      rows.foldl parseTableStep w = (rows.filter validRow).foldl parseTableStep w := by
  induction rows with
  | nil => intro w; rfl
  | cons r rest ih =>
    intro w
    cases hv : validRow r with
    | true => simp [List.filter_cons, hv, List.foldl_cons, ih]
    | false =>
      simp only [List.filter_cons, hv, List.foldl_cons,
        parseTableStep_invalid w hv]
      exact ih w

theorem mem_familyCountries_src {w : Worldwide} {c : String}
    (h : c ∈ familyCountries w) : ∃ q ∈ w, ∃ x ∈ q.2, x.country_code = c := by
  unfold familyCountries at h
  have hinner : ∀ (apps : List NationalApp) (acc : List String),
      c ∈ apps.foldl
        (fun acc2 a =>
          if a.country_code ≠ "" then insertUniq a.country_code acc2 else acc2)
        acc →
      c ∈ acc ∨ ∃ x ∈ apps, x.country_code = c := by
    intro apps
    induction apps with
    | nil => intro acc hacc; exact Or.inl hacc
    | cons a rest ih =>
      intro acc hacc
      rcases ih _ hacc with hstep | ⟨x, hx, hxc⟩
      · simp only at hstep
        by_cases ha : a.country_code ≠ ""
        · rw [if_pos ha] at hstep
          rcases (mem_insertUniq _ _ _).1 hstep with hc | hc
          · exact Or.inr ⟨a, List.mem_cons_self a rest, hc.symm⟩
          · exact Or.inl hc
        · rw [if_neg ha] at hstep
          exact Or.inl hstep
      · exact Or.inr ⟨x, List.mem_cons_of_mem a hx, hxc⟩
  have houter : ∀ (buckets : Worldwide) (acc : List String),
      c ∈ buckets.foldl
        (fun acc p =>
          p.2.foldl
            (fun acc2 a =>
              if a.country_code ≠ "" then insertUniq a.country_code acc2 else acc2)
            acc)
        acc →
      c ∈ acc ∨ ∃ q ∈ buckets, ∃ x ∈ q.2, x.country_code = c := by
    intro buckets
    induction buckets with
    | nil => intro acc hacc; exact Or.inl hacc
    | cons p rest ih =>
      intro acc hacc
      rcases ih _ hacc with hstep | ⟨q, hq, x, hx, hxc⟩
      · rcases hinner _ _ hstep with hacc2 | ⟨x, hx, hxc⟩
        · exact Or.inl hacc2
        · exact Or.inr ⟨p, List.mem_cons_self p rest, x, hx, hxc⟩
      · exact Or.inr ⟨q, List.mem_cons_of_mem p hq, x, hx, hxc⟩
  rcases houter w [] h with hfalse | hgoal
  · simp at hfalse
  · exact hgoal

/-- The per-record keep condition of the patent-details stage: the
record has no erro and, when a filter is set, the filter country is
among its family countries. -/
def layer3Keep (cf : Option String) (r : CrawlRecord) : Bool :=
  match r.erro with
  | some _ => false
  | none =>
    match cf with
    | some c => decide (c ∈ r.paises_familia)
    | none => true

theorem layer3_foldl (cf : Option String) (recs : List CrawlRecord) :
    ∀ acc : List CrawlRecord × List String,
      (recs.foldl (layer3Step cf) acc).1 = acc.1 ++ recs.filter (layer3Keep cf) := by
  induction recs with
  | nil => intro acc; simp
  | cons r rest ih =>
    intro acc
    rw [List.foldl_cons, ih]
    rcases herr : r.erro with _ | e
    · rcases cf with _ | c
      · simp [layer3Step, layer3Keep, herr, List.filter_cons]
      · by_cases hc : c ∈ r.paises_familia
        · simp [layer3Step, layer3Keep, herr, hc, List.filter_cons]
        · simp [layer3Step, layer3Keep, herr, hc, List.filter_cons]
    · simp [layer3Step, layer3Keep, herr, List.filter_cons]

theorem layer3_patents_eq (cf : Option String) (recs : List CrawlRecord) :
    (layer3PatentDetails cf recs).1 = recs.filter (layer3Keep cf) := by
  unfold layer3PatentDetails
  rw [layer3_foldl]
  rfl

theorem discover_inner_mem (ms : List (String × String)) :
    ∀ (acc : List String) (a : String),
      a ∈ ms.foldl (fun ac p => insertUniq ("WO" ++ p.1 ++ p.2) ac) acc ↔
        a ∈ acc ∨ ∃ p ∈ ms, a = "WO" ++ p.1 ++ p.2 := by
  induction ms with
  | nil => intro acc a; simp
  | cons m rest ih =>
    intro acc a
    rw [List.foldl_cons, ih, mem_insertUniq]
    simp only [List.mem_cons]
    constructor
    · rintro ((h | h) | ⟨p, hp, hap⟩)
      · exact Or.inr ⟨m, Or.inl rfl, h⟩
      · exact Or.inl h
      · exact Or.inr ⟨p, Or.inr hp, hap⟩
    · rintro (h | ⟨p, hp | hp, hap⟩)
      · exact Or.inl (Or.inr h)
      · exact Or.inl (Or.inl (hp ▸ hap))
      · exact Or.inr ⟨p, hp, hap⟩

theorem discover_inner_sorted (ms : List (String × String)) :
    ∀ acc : List String, acc.Sorted (· < ·) →
      (ms.foldl (fun ac p => insertUniq ("WO" ++ p.1 ++ p.2) ac) acc).Sorted (· < ·) := by
  induction ms with
  | nil => intro acc h; exact h
  | cons m rest ih =>
    intro acc h
    rw [List.foldl_cons]
    exact ih _ (sorted_insertUniq _ _ h)

theorem discover_mem (texts : List String) :
    ∀ (acc : List String) (a : String),
      a ∈ texts.foldl
          (fun acc t =>
            (scanWO t).foldl (fun ac p => insertUniq ("WO" ++ p.1 ++ p.2) ac) acc)
          acc ↔
        a ∈ acc ∨ ∃ t ∈ texts, ∃ p ∈ scanWO t, a = "WO" ++ p.1 ++ p.2 := by
  induction texts with
  | nil => intro acc a; simp
  | cons t rest ih =>
    intro acc a
    rw [List.foldl_cons, ih, discover_inner_mem]
    simp only [List.mem_cons]
    constructor
    · rintro ((h | ⟨p, hp, hap⟩) | ⟨u, hu, p, hp, hap⟩)
      · exact Or.inl h
      · exact Or.inr ⟨t, Or.inl rfl, p, hp, hap⟩
      · exact Or.inr ⟨u, Or.inr hu, p, hp, hap⟩
    · rintro (h | ⟨u, hu | hu, p, hp, hap⟩)
      · exact Or.inl (Or.inl h)
      · exact Or.inl (Or.inr ⟨p, hu ▸ hp, hap⟩)
      · exact Or.inr ⟨u, hu, p, hp, hap⟩

theorem discover_sorted (texts : List String) :
    ∀ acc : List String, acc.Sorted (· < ·) →
      (texts.foldl
        (fun acc t =>
          (scanWO t).foldl (fun ac p => insertUniq ("WO" ++ p.1 ++ p.2) ac) acc)
        acc).Sorted (· < ·) := by
  induction texts with
  | nil => intro acc h; exact h
  | cons t rest ih =>
    intro acc h
    rw [List.foldl_cons]
    exact ih _ (discover_inner_sorted _ _ h)

/-! ## Claim theorems -/

/-- C1: for every identifier whose page load fails on every attempt,
fetch_patent never raises (the model is a total function into records):
with max_retries = 3 it performs exactly 3 load attempts, returns the
terminal record whose erro field is the last failure's message, and the
diagnostics carry retry_count = 2, the zero-based index of that third
and last attempt. -/
theorem c1_fetch_retry_exhaustion :
    ∀ msgs : Nat → String,
      fetchPatentModel 3 (fun i => LoadOutcome.loadFail (msgs i)) =
        (FetchOutcome.failure (msgs 2) 2, 3) ∧
      getErro (fetchPatentModel 3 (fun i => LoadOutcome.loadFail (msgs i))).1 =
        some (msgs 2) := by
  intro msgs
  have h : fetchPatentModel 3 (fun i => LoadOutcome.loadFail (msgs i)) =
      (FetchOutcome.failure (msgs 2) 2, 3) := by
    simp [fetchPatentModel, fetchGo, attemptResult]
  exact ⟨h, by rw [h]; rfl⟩

/-- Extracted data carrying only a filing date: no title, abstract or
applicant, and an empty worldwide mapping. -/
def onlyDateData : ExtractedData :=
  { titulo := none, resumo := none, titular := none,
    deposito := some "2019-06-01", dataPublicacao := none, prioridade := none,
    worldwide := [] }

/-- Acceptance rule as worded by the claim for C3 (spec wording, for
comparison with the source rule): any of title, abstract, applicant,
any of the three dates, or any worldwide entry non-empty. -/
def specClaimAccepts (d : ExtractedData) : Bool :=
  optTruthy d.titulo || optTruthy d.resumo || optTruthy d.titular ||
  optTruthy d.deposito || optTruthy d.dataPublicacao || optTruthy d.prioridade ||
  d.worldwide.any (fun p => !p.2.isEmpty)

/-- C3 counterexample: data carrying only a filing date is accepted by
the claim's rule but rejected by the source's validation, so the fetch
retries and terminates with the no-data error instead of succeeding. -/
theorem c3_counterexample_dates_not_accepted :
    specClaimAccepts onlyDateData = true ∧
    acceptedExtraction onlyDateData = false ∧
    fetchPatentModel 3 (fun _ => LoadOutcome.loaded onlyDateData) =
      (FetchOutcome.failure noDataMsg 2, 3) := by
  refine ⟨rfl, rfl, ?_⟩
  simp [fetchPatentModel, fetchGo, attemptResult, acceptedExtraction,
    hasBasicData, optTruthy, onlyDateData]

/-- C3 amended: an attempt is accepted if and only if at least one of
title, abstract, applicant is a non-empty string or the worldwide
mapping is non-empty; the dates play no role. Equivalently, a fetch
whose every attempt loads the same data succeeds without error exactly
when that rule holds. -/
theorem c3_validation_rule :
    ∀ d : ExtractedData,
      (acceptedExtraction d = true ↔
        ((∃ s, d.titulo = some s ∧ s ≠ "") ∨ (∃ s, d.resumo = some s ∧ s ≠ "") ∨
         (∃ s, d.titular = some s ∧ s ≠ "") ∨ d.worldwide ≠ [])) ∧
      (getErro (fetchPatentModel 3 (fun _ => LoadOutcome.loaded d)).1 = none ↔
        acceptedExtraction d = true) := by
  intro d
  constructor
  · simp only [acceptedExtraction, hasBasicData, optTruthy_iff, Bool.or_eq_true,
      Bool.not_eq_true', List.isEmpty_eq_false, ne_eq, List.isEmpty_iff]
    aesop
  · by_cases ha : acceptedExtraction d = true
    · simp [fetchPatentModel, fetchGo, attemptResult, ha, getErro]
    · have ha2 : acceptedExtraction d = false := by simpa using ha
      simp [fetchPatentModel, fetchGo, attemptResult, ha2, getErro]

/-- C9: discovery returns a strictly sorted, duplicate-free list; its
members are exactly the canonical renderings WO-year-sequence of the
pattern matches over the texts; and two raw hits carrying the same
identifier with and without internal separators contribute one entry. -/
theorem c9_discovery_dedup_sorted :
    ∀ texts : List String,
      (discoverWOs texts).Sorted (· < ·) ∧
      (discoverWOs texts).Nodup ∧
      (∀ a, a ∈ discoverWOs texts ↔
        ∃ t ∈ texts, ∃ p ∈ scanWO t, a = "WO" ++ p.1 ++ p.2) ∧
      discoverWOs ["hit one: WO2018162793", "hit two: WO 2018/162793 and more"] =
        ["WO2018162793"] := by
  intro texts
  have hsorted : (discoverWOs texts).Sorted (· < ·) :=
    discover_sorted texts [] (by simp)
  refine ⟨hsorted, hsorted.nodup, ?_, by decide⟩
  intro a
  have h := discover_mem texts [] a
  simpa [discoverWOs] using h

/-- C10: the derived legal-status category is always one of active,
not_active, unknown, characterized by the ordered keyword tests on the
lowercased status text, and pending is never produced; in particular
every application stored by the extractor carries one of the three
categories and never pending. -/
theorem c10_legal_status_categories :
    (∀ s : String,
      (legalStatusCat s = "active" ∨ legalStatusCat s = "not_active" ∨
       legalStatusCat s = "unknown") ∧
      legalStatusCat s ≠ "pending" ∧
      (legalStatusCat s = "active" ↔ containsLower s "grant" = true) ∧
      (legalStatusCat s = "not_active" ↔
        (containsLower s "grant" = false ∧
         (containsLower s "withdraw" = true ∨ containsLower s "abandon" = true)))) ∧
    (∀ (rows : List (List String)) (sweep : List String),
      ∀ q ∈ extractWorldwideApplications rows sweep, ∀ x ∈ q.2,
        (x.legal_status_cat = "active" ∨ x.legal_status_cat = "not_active" ∨
         x.legal_status_cat = "unknown") ∧ x.legal_status_cat ≠ "pending") := by
  constructor
  · intro s
    unfold legalStatusCat
    split_ifs with hg hw
    · refine ⟨Or.inl rfl, by decide, by simp [hg], ?_⟩
      constructor
      · intro h
        exact absurd h (by decide)
      · rintro ⟨hgf, _⟩
        rw [hgf] at hg
        cases hg
    · have hg2 : containsLower s "grant" = false := by simpa using hg
      refine ⟨Or.inr (Or.inl rfl), by decide, ?_, ?_⟩
      · constructor
        · intro h
          exact absurd h (by decide)
        · intro h
          rw [h] at hg2
          cases hg2
      · exact ⟨fun _ => ⟨hg2, by simpa using hw⟩, fun _ => rfl⟩
    · have hg2 : containsLower s "grant" = false := by simpa using hg
      have hw2 : (containsLower s "withdraw" || containsLower s "abandon") = false := by
        simpa using hw
      refine ⟨Or.inr (Or.inr rfl), by decide, ?_, ?_⟩
      · constructor
        · intro h
          exact absurd h (by decide)
        · intro h
          rw [h] at hg2
          cases hg2
      · constructor
        · intro h
          exact absurd h (by decide)
        · rintro ⟨_, hor | hor⟩
          · rw [hor] at hw2
            simp at hw2
          · rw [hor] at hw2
            simp at hw2
  · intro rows sweep q hq x hx
    have h := extract_sound rows sweep q hq x hx
    refine ⟨h.2.2, ?_⟩
    rcases h.2.2 with h3 | h3 | h3 <;> rw [h3] <;> decide

/-- Table row whose legal-status text mentions a grant, used to witness
the stored-category part of the C10 theorem. -/
def grantedRow : List String := ["2020-01-01", "BR", "N1", "Patent granted"]

/-- The application the extractor stores for grantedRow. -/
def grantedApp : NationalApp :=
  { filing_date := "2020-01-01", country_code := "BR",
    application_number := "N1", document_id := "patent/BRN1/en",
    legal_status := "Patent granted", legal_status_cat := "active" }

/-- Witness for C10: the stored-category statement evaluated on the
concrete granted row. -/
theorem c10_legal_status_witness :
    (grantedApp.legal_status_cat = "active" ∨
     grantedApp.legal_status_cat = "not_active" ∨
     grantedApp.legal_status_cat = "unknown") ∧
    grantedApp.legal_status_cat ≠ "pending" :=
  c10_legal_status_categories.2 [grantedRow] [] ("2020", [grantedApp])
    (by decide) grantedApp (by decide)

/-- Application stored for a plain three-cell BR row. -/
def brRowApp : NationalApp :=
  { filing_date := "2020-01-01", country_code := "BR",
    application_number := "N1", document_id := "patent/BRN1/en",
    legal_status := "", legal_status_cat := "unknown" }

/-- Application stored for a row whose country-code cell is the digit
string 12. -/
def digitApp : NationalApp :=
  { filing_date := "2020-01-01", country_code := "12",
    application_number := "N1", document_id := "patent/12N1/en",
    legal_status := "", legal_status_cat := "unknown" }

/-- C4 counterexample: the source validates only the length of the
candidate code, so the malformed non-letter code 12 is stored in the
worldwide mapping and surfaces in the family countries, while the
3-letter code EPO is discarded even though the claim admits 2-3-letter
codes. -/
theorem c4_counterexample_nonletter_code_stored :
    extractWorldwideApplications [["2020-01-01", "12", "N1"]] [] =
      [("2020", [digitApp])] ∧
    ("12".data.all Char.isAlpha) = false ∧
    "12" ∈ familyCountries (extractWorldwideApplications [["2020-01-01", "12", "N1"]] []) ∧
    extractWorldwideApplications [["2020-01-01", "EPO", "N2"]] [] = [] ∧
    familyCountries (extractWorldwideApplications [["2020-01-01", "EPO", "N2"]] []) = [] := by
  decide

/-- C4 amended: a parsed row is stored exactly when it has at least 3
cells and its candidate country code is non-empty and exactly 2
characters long (letters are not required); rows failing this are
discarded and contribute neither to the worldwide mapping nor to the
family countries, and every stored code (including sweep entries) has
length 2. -/
theorem c4_row_validation :
    (∀ (rows : List (List String)) (sweep : List String),
       extractWorldwideApplications rows sweep =
         extractWorldwideApplications (rows.filter validRow) sweep) ∧
    (∀ (rows : List (List String)) (sweep : List String),
       ∀ q ∈ extractWorldwideApplications rows sweep, ∀ x ∈ q.2,
         x.country_code ≠ "" ∧ x.country_code.length = 2) ∧
    (∀ (rows : List (List String)) (sweep : List String),
       ∀ c ∈ familyCountries (extractWorldwideApplications rows sweep),
         c ≠ "" ∧ c.length = 2) := by
  refine ⟨?_, ?_, ?_⟩
  · intro rows sweep
    unfold extractWorldwideApplications
    rw [parse_foldl_filter]
  · intro rows sweep q hq x hx
    have h := extract_sound rows sweep q hq x hx
    exact ⟨h.1, h.2.1⟩
  · intro rows sweep c hc
    rcases mem_familyCountries_src hc with ⟨q, hq, x, hx, hxc⟩
    have h := extract_sound rows sweep q hq x hx
    exact ⟨hxc ▸ h.1, hxc ▸ h.2.1⟩

/-- Witness for C4: the stored-code invariant evaluated on a concrete
stored row. -/
theorem c4_row_validation_witness :
    brRowApp.country_code ≠ "" ∧ brRowApp.country_code.length = 2 :=
  c4_row_validation.2.1 [["2020-01-01", "BR", "N1"]] [] ("2020", [brRowApp])
    (by decide) brRowApp (by decide)

/-- C5 counterexample: a row whose filing date is present but not a
parsable date is bucketed under the first 4 characters of that text,
not under any unknown sentinel; neither an unknown nor an Unknown
bucket exists for it. -/
theorem c5_counterexample_unparsable_date_bucket :
    extractWorldwideApplications [["not a date", "BR", "N1"]] [] =
      [("not ",
        [{ filing_date := "not a date", country_code := "BR",
           application_number := "N1", document_id := "patent/BRN1/en",
           legal_status := "", legal_status_cat := "unknown" }])] ∧
    wwLookup (extractWorldwideApplications [["not a date", "BR", "N1"]] []) "unknown" =
      none ∧
    wwLookup (extractWorldwideApplications [["not a date", "BR", "N1"]] []) "Unknown" =
      none := by
  decide

/-- C5 amended: for an accepted row the year bucket key is the first 4
characters of the filing-date string whenever that string has at least
4 characters, regardless of parseability; a string shorter than 4
characters (including the empty string) is bucketed under the sentinel
spelled Unknown; in particular filing date 2019-06-01 lands under key
2019. -/
theorem c5_year_bucketing :
    (∀ (filing c n : String), c ≠ "" → c.length = 2 → 4 ≤ filing.length →
       extractWorldwideApplications [[filing, c, n]] [] =
         [(filing.take 4,
           [{ filing_date := filing, country_code := c, application_number := n,
              document_id := "patent/" ++ c ++ n ++ "/en",
              legal_status := "", legal_status_cat := "unknown" }])]) ∧
    (∀ (filing c n : String), c ≠ "" → c.length = 2 → filing.length < 4 →
       extractWorldwideApplications [[filing, c, n]] [] =
         [("Unknown",
           [{ filing_date := filing, country_code := c, application_number := n,
              document_id := "patent/" ++ c ++ n ++ "/en",
              legal_status := "", legal_status_cat := "unknown" }])]) ∧
    extractWorldwideApplications [["2019-06-01", "BR", "X1"]] [] =
      [("2019",
        [{ filing_date := "2019-06-01", country_code := "BR",
           application_number := "X1", document_id := "patent/BRX1/en",
           legal_status := "", legal_status_cat := "unknown" }])] := by
  refine ⟨?_, ?_, by decide⟩
  · intro filing c n hc1 hc2 hlen
    simp only [extractWorldwideApplications, List.foldl_cons, List.foldl_nil,
      parseTableStep]
    rw [if_pos hlen, if_pos ⟨hc1, hc2⟩]
    rfl
  · intro filing c n hc1 hc2 hlen
    simp only [extractWorldwideApplications, List.foldl_cons, List.foldl_nil,
      parseTableStep]
    rw [if_neg (not_le.mpr hlen), if_pos ⟨hc1, hc2⟩]
    rfl

/-- Witness for C5: the two bucketing branches evaluated on concrete
rows. -/
theorem c5_year_bucketing_witness :
    extractWorldwideApplications [["2019-06-01", "BR", "X1"]] [] =
      [("2019-06-01".take 4,
        [{ filing_date := "2019-06-01", country_code := "BR",
           application_number := "X1",
           document_id := "patent/" ++ "BR" ++ "X1" ++ "/en",
           legal_status := "", legal_status_cat := "unknown" }])] ∧
    extractWorldwideApplications [["19", "BR", "X1"]] [] =
      [("Unknown",
        [{ filing_date := "19", country_code := "BR",
           application_number := "X1",
           document_id := "patent/" ++ "BR" ++ "X1" ++ "/en",
           legal_status := "", legal_status_cat := "unknown" }])] :=
  ⟨c5_year_bucketing.1 "2019-06-01" "BR" "X1" (by decide) (by decide) (by decide),
   c5_year_bucketing.2.1 "19" "BR" "X1" (by decide) (by decide) (by decide)⟩

/-- A BR application in the 2020 bucket of the two-country record. -/
def brApp : NationalApp :=
  { filing_date := "2020-01-01", country_code := "BR",
    application_number := "BR10", document_id := "",
    legal_status := "", legal_status_cat := "unknown" }

/-- A US application in the 2021 bucket of the two-country record. -/
def usApp : NationalApp :=
  { filing_date := "2021-05-05", country_code := "US",
    application_number := "US12", document_id := "",
    legal_status := "", legal_status_cat := "unknown" }

/-- An error-free crawl record whose worldwide applications span BR and
US. -/
def brUsRec : CrawlRecord :=
  { publicacao := "WO2020000001", erro := none,
    worldwide_applications := [("2020", [brApp]), ("2021", [usApp])],
    paises_familia := ["BR", "US"], country_filter_applied := none }

/-- C2 counterexample: with filter BR the pipeline's patent-detail
stage returns the whole record unmodified, so the returned record still
contains the US entry in its worldwide applications and carries no
applied-filter tag. -/
theorem c2_counterexample_pipeline_no_postfilter :
    layer3PatentDetails (some "BR") [brUsRec] = ([brUsRec], []) ∧
    ("2021", [usApp]) ∈ brUsRec.worldwide_applications ∧
    usApp.country_code ≠ "BR" ∧
    brUsRec.country_filter_applied = none := by
  decide

/-- C2 amended: the pipeline's patent-detail stage only includes or
excludes whole records (it keeps a record exactly when it has no erro
and, with a filter set, the filter country is among its family
countries, without modifying or tagging it); the per-entry
post-filtering and tagging described by the claim is performed by the
single-patent API endpoint: its output record is tagged with the
filter, every surviving year bucket is non-empty and holds only
applications whose country code equals the filter, and every matching
application of the input survives in its year bucket. -/
theorem c2_pipeline_and_api_country_filter :
    (∀ (cf : Option String) (recs : List CrawlRecord),
       (layer3PatentDetails cf recs).1 = recs.filter (layer3Keep cf)) ∧
    (∀ (c : String) (rec : CrawlRecord),
       (apiCountryFilter (some c) rec).country_filter_applied = some c ∧
       (∀ p ∈ (apiCountryFilter (some c) rec).worldwide_applications,
          p.2 ≠ [] ∧ ∀ a ∈ p.2, a.country_code = c) ∧
       (∀ p ∈ rec.worldwide_applications, ∀ a ∈ p.2, a.country_code = c →
          ∃ q ∈ (apiCountryFilter (some c) rec).worldwide_applications,
            q.1 = p.1 ∧ a ∈ q.2)) := by
  refine ⟨layer3_patents_eq, ?_⟩
  intro c rec
  refine ⟨rfl, ?_, ?_⟩
  · intro p hp
    have hp2 : p ∈ filterWorldwideByCountry c rec.worldwide_applications := hp
    unfold filterWorldwideByCountry at hp2
    rcases List.mem_filterMap.1 hp2 with ⟨x, hx, hfx⟩
    simp only at hfx
    by_cases hne : x.2.filter (fun a => a.country_code = c) ≠ []
    · rw [if_pos hne] at hfx
      rcases Option.some.injEq _ _ ▸ hfx with hpx
      have hpx2 : p = (x.1, x.2.filter (fun a => a.country_code = c)) := hpx.symm
      subst hpx2
      refine ⟨hne, ?_⟩
      intro a ha
      have := List.mem_filter.1 ha
      simpa using this.2
    · rw [if_neg hne] at hfx
      cases hfx
  · intro p hp a ha hac
    have hmem : a ∈ p.2.filter (fun a => a.country_code = c) :=
      List.mem_filter.2 ⟨ha, by simp [hac]⟩
    have hane : p.2.filter (fun a => a.country_code = c) ≠ [] :=
      List.ne_nil_of_mem hmem
    refine ⟨(p.1, p.2.filter (fun a => a.country_code = c)), ?_, rfl, hmem⟩
    show _ ∈ filterWorldwideByCountry c rec.worldwide_applications
    unfold filterWorldwideByCountry
    apply List.mem_filterMap.2
    refine ⟨p, hp, ?_⟩
    simp only
    rw [if_pos hane]

/-- Witness for C2: the API filter applied to the two-country record,
tagging the record and keeping the matching BR application. -/
theorem c2_country_filter_witness :
    (apiCountryFilter (some "BR") brUsRec).country_filter_applied = some "BR" ∧
    (∃ q ∈ (apiCountryFilter (some "BR") brUsRec).worldwide_applications,
       q.1 = ("2020", [brApp]).1 ∧ brApp ∈ q.2) :=
  ⟨(c2_pipeline_and_api_country_filter.2 "BR" brUsRec).1,
   (c2_pipeline_and_api_country_filter.2 "BR" brUsRec).2.2 ("2020", [brApp])
     (by decide) brApp (by decide) (by decide)⟩

/-- C6 counterexample: the normalizer removes only the uppercase WO,
spaces and slashes, so a fully lowercase identifier and a
hyphen-separated identifier do not normalize to the canonical
uppercase separator-free form. -/
theorem c6_counterexample_lowercase_hyphens :
    normalizeWO "wo2018162793" = "WOwo2018162793" ∧
    normalizeWO "wo2018162793" ≠ normalizeWO "WO2018162793" ∧
    normalizeWO "WO-2018-162793" = "WO-2018-162793" ∧
    normalizeWO "WO-2018-162793" ≠ "WO2018162793" := by
  decide

/-- C6 amended: normalization prefixes WO after removing every
occurrence of uppercase WO, of spaces and of slashes; it is idempotent
on canonical identifiers (WO followed by a tail free of WO, spaces and
slashes, such as digits), and uppercase variants with spaces or slashes
normalize to the canonical form; lowercase and hyphenated variants are
not normalized to it. -/
theorem c6_normalization :
    (∀ t : List Char, containsSub "WO".data t = false → ' ' ∉ t → '/' ∉ t →
       normalizeWO (String.mk ('W' :: 'O' :: t)) = String.mk ('W' :: 'O' :: t)) ∧
    normalizeWO "WO 2018/162793" = "WO2018162793" ∧
    normalizeWO "WO2018162793" = "WO2018162793" := by
  refine ⟨?_, by decide, by decide⟩
  intro t h1 h2 h3
  have hrepl1 : pyReplace ('W' :: 'O' :: t) "WO".data [] = t := by
    show replFuel "WO".data [] (t.length + 2) ('W' :: 'O' :: t) = t
    unfold replFuel
    rw [if_pos ⟨by decide, by simp [List.isPrefixOf]⟩]
    show replFuel "WO".data [] (t.length + 1) t = t
    exact replFuel_of_not_contains _ _ _ _ h1
  have h2f : containsSub " ".data t = false := by
    cases hc : containsSub " ".data t with
    | false => rfl
    | true => exact absurd ((containsSub_singleton ' ' t).1 hc) h2
  have h3f : containsSub "/".data t = false := by
    cases hc : containsSub "/".data t with
    | false => rfl
    | true => exact absurd ((containsSub_singleton '/' t).1 hc) h3
  show String.mk ('W' :: 'O' ::
      pyReplace (pyReplace (pyReplace ('W' :: 'O' :: t) "WO".data []) " ".data [])
        "/".data []) = String.mk ('W' :: 'O' :: t)
  rw [hrepl1, pyReplace_of_not_contains _ _ _ h2f, pyReplace_of_not_contains _ _ _ h3f]

/-- Witness for C6: idempotence on the canonical identifier with digit
tail 2018162793. -/
theorem c6_normalization_witness :
    normalizeWO (String.mk ('W' :: 'O' :: "2018162793".data)) =
      String.mk ('W' :: 'O' :: "2018162793".data) :=
  c6_normalization.1 "2018162793".data (by decide) (by decide) (by decide)

/-- C7 counterexample: the success-path record has a titulo key while
the terminal failure record does not (nor a datas key), and the failure
record has a status key absent from the success shape, so the two
shapes differ rather than sharing one field set. -/
theorem c7_counterexample_shape_mismatch :
    "titulo" ∈ dictKeys (successRecordDict (basicDataInit "WO1") (Val.vdict [])
        (Val.vlist []) Val.vnull (Val.vnat 0) (Val.vnat 0) (Val.vnat 0)) ∧
    "titulo" ∉ dictKeys (terminalRecordDict "WO1" "timeout" Val.vnull 2) ∧
    "datas" ∉ dictKeys (terminalRecordDict "WO1" "timeout" Val.vnull 2) ∧
    "status" ∈ dictKeys (terminalRecordDict "WO1" "timeout" Val.vnull 2) ∧
    "status" ∉ dictKeys (successRecordDict (basicDataInit "WO1") (Val.vdict [])
        (Val.vlist []) Val.vnull (Val.vnat 0) (Val.vnat 0) (Val.vnat 0)) := by
  decide

/-- C7 amended: the terminal failure record carries only the nine keys
fonte, pais, publicacao, erro, status, duracao_segundos, documentos,
worldwide_applications, debug, with erro set to the failure message and
an empty worldwide mapping; the data fields of the success shape
(titulo, datas, inventores, paises_familia and the rest) are entirely
absent from it rather than present and null, and the success shape in
turn has a fixed fifteen-key set without erro or status. -/
theorem c7_record_shapes :
    ∀ (wo err : String) (ww pf dur twa bpf cf : Val) (rc : Nat),
      dictKeys (successRecordDict (basicDataInit wo) ww pf dur twa bpf cf) =
        ["fonte", "pais", "publicacao", "pedido", "titulo", "titular", "datas",
         "inventores", "cpc_ipc", "resumo", "paises_familia", "documentos",
         "worldwide_applications", "debug", "duracao_segundos"] ∧
      dictKeys (terminalRecordDict wo err dur rc) =
        ["fonte", "pais", "publicacao", "erro", "status", "duracao_segundos",
         "documentos", "worldwide_applications", "debug"] ∧
      dictLookup (terminalRecordDict wo err dur rc) "erro" = some (Val.vstr err) ∧
      dictLookup (terminalRecordDict wo err dur rc) "titulo" = none ∧
      dictLookup (terminalRecordDict wo err dur rc) "datas" = none ∧
      dictLookup (terminalRecordDict wo err dur rc) "inventores" = none ∧
      dictLookup (terminalRecordDict wo err dur rc) "paises_familia" = none ∧
      dictLookup (terminalRecordDict wo err dur rc) "worldwide_applications" =
        some (Val.vdict []) ∧
      dictLookup (successRecordDict (basicDataInit wo) ww pf dur twa bpf cf) "erro" =
        none := by
  intro wo err ww pf dur twa bpf cf rc
  refine ⟨?_, ?_, ?_, ?_, ?_, ?_, ?_, ?_, ?_⟩ <;> rfl

/-- A crawler outcome with a title and no error, used as the stubbed
extraction result in the pool claims. -/
def cachedOutcome : FetchOutcome :=
  FetchOutcome.success
    { titulo := some "T", resumo := none, titular := none,
      deposito := none, dataPublicacao := none, prioridade := none,
      worldwide := [] } []

/-- A stub crawler returning the same successful outcome for every
identifier. -/
def constCrawl : String → FetchOutcome := fun _ => cachedOutcome

/-- C8 counterexample: two spellings of the same patent number (their
canonical forms agree) use different cache entries, so a fetch with the
variant spelling of an already-cached identifier performs a fresh
extraction and the cache ends up keyed by both raw spellings. -/
theorem c8_counterexample_variant_spelling :
    normalizeWO "WO 2018/162793" = normalizeWO "WO2018162793" ∧
    (poolFetchPatent [] constCrawl "WO2018162793").cache =
      [("WO2018162793", cachedOutcome)] ∧
    (poolFetchPatent [("WO2018162793", cachedOutcome)] constCrawl
        "WO 2018/162793").extracted = true ∧
    (poolFetchPatent [("WO2018162793", cachedOutcome)] constCrawl
        "WO 2018/162793").cache =
      [("WO2018162793", cachedOutcome), ("WO 2018/162793", cachedOutcome)] := by
  decide

/-- C8 amended: the pool cache is keyed by the raw input spelling; an
exact-spelling hit returns the cached record with no extraction and an
unchanged cache, while a miss runs the crawler, returns its record, and
caches it under the raw key exactly when its erro field is unset. -/
theorem c8_cache_semantics :
    (∀ (cache : List (String × FetchOutcome)) (crawl : String → FetchOutcome)
       (wo : String) (r : FetchOutcome), lookupAssoc cache wo = some r →
         poolFetchPatent cache crawl wo = ⟨r, cache, false⟩) ∧
    (∀ (cache : List (String × FetchOutcome)) (crawl : String → FetchOutcome)
       (wo : String), lookupAssoc cache wo = none →
         (poolFetchPatent cache crawl wo).extracted = true ∧
         (poolFetchPatent cache crawl wo).result = crawl wo ∧
         (getErro (crawl wo) = none →
           (poolFetchPatent cache crawl wo).cache = cache ++ [(wo, crawl wo)]) ∧
         (∀ e, getErro (crawl wo) = some e →
           (poolFetchPatent cache crawl wo).cache = cache)) := by
  constructor
  · intro cache crawl wo r h
    unfold poolFetchPatent
    rw [h]
  · intro cache crawl wo h
    unfold poolFetchPatent
    rw [h]
    rcases hg : getErro (crawl wo) with _ | e
    · simp [hg]
    · simp [hg]

/-- Witness for C8: an exact-spelling cache hit on the concrete cache,
returning the cached record without extraction. -/
theorem c8_cache_semantics_witness :
    poolFetchPatent [("WO2018162793", cachedOutcome)] constCrawl "WO2018162793" =
      ⟨cachedOutcome, [("WO2018162793", cachedOutcome)], false⟩ :=
  c8_cache_semantics.1 [("WO2018162793", cachedOutcome)] constCrawl "WO2018162793"
    cachedOutcome (by decide)

end Pharmyrus
